import Mathlib

/-!
Verification of the `intcode` crate of Smaug123/advent-of-code-2019.

The development shallowly embeds the two halves of the crate:

* `src/intcode/src/ast.rs` — the symbolic expression type `Ast`, its
  evaluator `Ast.eval`, the syntactic comparator `Ast.strict_equal`,
  and the condition-driven simplifier `Ast.simplify`.  Rust's `simplify`
  recurses on freshly built trees, so the Lean embedding threads an
  explicit fuel argument and returns `none` when fuel runs out; every
  terminating Rust run is `some` at a large enough fuel.
* `src/intcode/src/intcode.rs` — the machine state, its two-tier memory,
  parameter decoding and the `one_step` interpreter.  Methods that take
  `&mut self` in Rust are embedded as functions returning the new state
  paired with the `Result`; every early-`return Err(..)` path returns the
  state exactly as it was at that point, which makes "no partial
  mutation" claims directly statable.

`i64` cell values are embedded as `Int`; `usize` addresses as `Nat`; the
`i32` relative base as `Int`, with the `i32` range enforced where the Rust
code performs checked conversions (`to_i32`).  Rust's `Result<i64, char>`
is embedded as `Except Char Int`, together with boolean versions of the
derived `PartialEq`/`Ord` instances (`Ok` compares below `Err`), because
`Ast::eval` compares whole `Result` values when branching on conditionals.
-/

namespace Intcode

/-- The symbolic expression type, from `ast.rs` (`enum Ast`). -/
inductive Ast where
  | Constant : Int → Ast
  | Zero : Ast
  | One : Ast
  | AddNode : Ast → Ast → Ast
  | MulNode : Ast → Ast → Ast
  | IfEqThen : Ast → Ast → Ast → Ast → Ast
  | IfLessThen : Ast → Ast → Ast → Ast → Ast
  | Variable : Char → Ast
deriving DecidableEq

/-- Path conditions, from `ast.rs` (`enum Condition`). -/
inductive Condition where
  | LessThan : Ast → Ast → Condition
  | Equal : Ast → Ast → Condition
  | NotEqual : Ast → Ast → Condition
  | NotLess : Ast → Ast → Condition

/-- Syntactic comparator `Ast::strict_equal`: identical tree shape, except
that `Zero`/`Constant 0` and `One`/`Constant 1` are identified at leaves. -/
def Ast.strict_equal : Ast → Ast → Bool
  | .Constant a, .Constant b => a == b
  | .Constant a, .Zero | .Zero, .Constant a => a == 0
  | .Constant a, .One | .One, .Constant a => a == 1
  | .Zero, .Zero => true
  | .Zero, .One => false
  | .One, .Zero => false
  | .One, .One => true
  | .AddNode a b, .AddNode a2 b2 => a.strict_equal a2 && b.strict_equal b2
  | .MulNode a b, .MulNode a2 b2 => a.strict_equal a2 && b.strict_equal b2
  | .IfEqThen a b c d, .IfEqThen a2 b2 c2 d2 =>
      a.strict_equal a2 && b.strict_equal b2 && c.strict_equal c2 && d.strict_equal d2
  | .IfLessThen a b c d, .IfLessThen a2 b2 c2 d2 =>
      a.strict_equal a2 && b.strict_equal b2 && c.strict_equal c2 && d.strict_equal d2
  | .Variable a, .Variable b => a == b
  | _, _ => false

/-- Structural equality of `Result<i64, char>` values, as Rust's derived
`PartialEq` on `Result` (used by `Ast::eval` on `IfEqThen`). -/
def exceptEq : Except Char Int → Except Char Int → Bool
  | .ok a, .ok b => a == b
  | .error a, .error b => a == b
  | _, _ => false

/-- The order on `Result<i64, char>` from Rust's derived `Ord`: `Ok` sorts
before `Err`, payloads compare within a variant (used by `Ast::eval` on
`IfLessThen`). -/
def exceptLt : Except Char Int → Except Char Int → Bool
  | .ok a, .ok b => decide (a < b)
  | .ok _, .error _ => true
  | .error _, .ok _ => false
  | .error a, .error b => decide (a < b)

/-- `Ast::eval`: resolve an expression against a partial variable binding.
Arithmetic nodes propagate the first error (Rust's `?`); conditional nodes
compare the two operands' whole `Result` values and evaluate only the taken
branch. -/
def Ast.eval (a : Ast) (var : Char → Option Int) : Except Char Int :=
  match a with
  | .Constant i => .ok i
  | .Zero => .ok 0
  | .One => .ok 1
  | .Variable c =>
      match var c with
      | none => .error c
      | some x => .ok x
  | .AddNode x y =>
      match x.eval var with
      | .error e => .error e
      | .ok xv =>
          match y.eval var with
          | .error e => .error e
          | .ok yv => .ok (xv + yv)
  | .MulNode x y =>
      match x.eval var with
      | .error e => .error e
      | .ok xv =>
          match y.eval var with
          | .error e => .error e
          | .ok yv => .ok (xv * yv)
  | .IfEqThen us other eq_res neq_res =>
      if exceptEq (us.eval var) (other.eval var) then eq_res.eval var else neq_res.eval var
  | .IfLessThen us other lt_res geq_res =>
      if exceptLt (us.eval var) (other.eval var) then lt_res.eval var else geq_res.eval var

/-- Auxiliary total semantics: the value `Ast.eval` computes under a binding
defined on every variable (where every sub-evaluation is `ok`, see
`Ast.eval_total`). -/
def Ast.evalT : Ast → (Char → Int) → Int
  | .Constant i, _ => i
  | .Zero, _ => 0
  | .One, _ => 1
  | .Variable c, f => f c
  | .AddNode x y, f => x.evalT f + y.evalT f
  | .MulNode x y, f => x.evalT f * y.evalT f
  | .IfEqThen a b p q, f => if a.evalT f = b.evalT f then p.evalT f else q.evalT f
  | .IfLessThen a b p q, f => if a.evalT f < b.evalT f then p.evalT f else q.evalT f

/-- The `for cond in conditions.iter()` scan in `Ast::simplify`'s `IfEqThen`
arm: the first condition whose operands `strict_equal`-match `(a, b)`
statically resolves the branch (`some true` = equal branch, `some false` =
not-equal branch); `NotLess` entries are skipped. -/
def findEqMatch (a b : Ast) : List Condition → Option Bool
  | [] => none
  | c :: rest =>
      match c with
      | .NotEqual v1 v2 =>
          if a.strict_equal v1 && b.strict_equal v2 then some false else findEqMatch a b rest
      | .Equal v1 v2 =>
          if a.strict_equal v1 && b.strict_equal v2 then some true else findEqMatch a b rest
      | .LessThan v1 v2 =>
          if a.strict_equal v1 && b.strict_equal v2 then some false else findEqMatch a b rest
      | .NotLess _ _ => findEqMatch a b rest

/-- The condition scan in `Ast::simplify`'s `IfLessThen` arm (`some true` =
less branch, `some false` = not-less branch); `NotEqual` entries are
skipped. -/
def findLessMatch (a b : Ast) : List Condition → Option Bool
  | [] => none
  | c :: rest =>
      match c with
      | .Equal v1 v2 =>
          if a.strict_equal v1 && b.strict_equal v2 then some false else findLessMatch a b rest
      | .LessThan v1 v2 =>
          if a.strict_equal v1 && b.strict_equal v2 then some true else findLessMatch a b rest
      | .NotLess v1 v2 =>
          if a.strict_equal v1 && b.strict_equal v2 then some false else findLessMatch a b rest
      | .NotEqual _ _ => findLessMatch a b rest

/-- The `IfEqThen` arm of `Ast::simplify` after both compared operands have
been simplified to `a` and `b`.  `rec` is the recursive simplifier (at one
less fuel).  The match arms are in the Rust source's order. -/
def ifEqSimp (rec : Ast → List Condition → Option Ast) (conditions : List Condition)
    (a b eq_res neq_res : Ast) : Option Ast :=
  match findEqMatch a b conditions with
  | some true => rec eq_res conditions
  | some false => rec neq_res conditions
  | none =>
      match a, b with
      | .Zero, .Zero => rec eq_res conditions
      | .Constant a, .Constant b =>
          if a = b then rec eq_res conditions else rec neq_res conditions
      | .Constant 0, .Zero => rec eq_res conditions
      | .Constant _, .Zero => rec neq_res conditions
      | .Constant 1, .One => rec eq_res conditions
      | .Constant _, .One => rec neq_res conditions
      | .Zero, .Constant 0 => rec eq_res conditions
      | .Zero, .Constant _ => rec neq_res conditions
      | .Zero, .One => rec neq_res conditions
      | .One, .Constant 1 => rec eq_res conditions
      | .One, .Constant _ => rec neq_res conditions
      | .One, .Zero => rec neq_res conditions
      | .One, .One => rec eq_res conditions
      | .Variable x, .Variable y =>
          if x = y then rec eq_res conditions
          else
            match rec eq_res (.Equal (.Variable x) (.Variable y) :: conditions) with
            | none => none
            | some et =>
                match rec neq_res (.NotEqual (.Variable x) (.Variable y) :: conditions) with
                | none => none
                | some nt => some (.IfEqThen (.Variable x) (.Variable y) et nt)
      | a, b =>
          match rec eq_res (.Equal a b :: conditions) with
          | none => none
          | some et =>
              match rec neq_res (.NotEqual a b :: conditions) with
              | none => none
              | some nt => some (.IfEqThen a b et nt)

/-- The `IfLessThen` arm of `Ast::simplify` after both compared operands
have been simplified to `a` and `b`. -/
def ifLessSimp (rec : Ast → List Condition → Option Ast) (conditions : List Condition)
    (a b if_less if_geq : Ast) : Option Ast :=
  match findLessMatch a b conditions with
  | some true => rec if_less conditions
  | some false => rec if_geq conditions
  | none =>
      match rec if_less (.LessThan a b :: conditions) with
      | none => none
      | some lt =>
          match rec if_geq (.NotLess a b :: conditions) with
          | none => none
          | some ge => some (.IfLessThen a b lt ge)

/-- The `AddNode` arm of `Ast::simplify` after both children have been
simplified to `xs` and `ys`.  Match arms in the Rust source's order. -/
def addSimp (rec : Ast → List Condition → Option Ast) (conditions : List Condition)
    (xs ys : Ast) : Option Ast :=
  match xs, ys with
  | .Constant 0, a => some a
  | .Zero, a => some a
  | a, .Constant 0 => some a
  | a, .Zero => some a
  | .Constant a, .Constant b => some (.Constant (a + b))
  | .Constant a, .One => some (.Constant (a + 1))
  | .Constant a, .Variable x => some (.AddNode (.Constant a) (.Variable x))
  | .One, .Constant a => some (.Constant (a + 1))
  | .One, .One => some (.Constant 2)
  | .One, .Variable a => some (.AddNode .One (.Variable a))
  | .Variable a, b => some (.AddNode b (.Variable a))
  | .Constant v, .AddNode p q =>
      match rec (.AddNode (.Constant v) p) conditions with
      | none => none
      | some l => some (.AddNode l q)
  | .Constant c, .MulNode p q => some (.AddNode (.Constant c) (.MulNode p q))
  | .One, .AddNode p q =>
      match rec (.AddNode .One p) conditions with
      | none => none
      | some l => some (.AddNode l q)
  | .One, .MulNode p q => some (.AddNode .One (.MulNode p q))
  | .AddNode p q, other =>
      match rec (.AddNode q other) conditions with
      | none => none
      | some r => some (.AddNode p r)
  | .IfLessThen a b if_less if_not_less, .Constant c
  | .Constant c, .IfLessThen a b if_less if_not_less =>
      match rec (.AddNode if_less (.Constant c)) (.LessThan a b :: conditions) with
      | none => none
      | some l =>
          match rec (.AddNode if_not_less (.Constant c)) (.NotLess a b :: conditions) with
          | none => none
          | some r => some (.IfLessThen a b l r)
  | a, b => some (.AddNode a b)

/-- The `MulNode` arm of `Ast::simplify` after both children have been
simplified to `xs` and `ys`.  Match arms in the Rust source's order. -/
def mulSimp (rec : Ast → List Condition → Option Ast) (conditions : List Condition)
    (xs ys : Ast) : Option Ast :=
  match xs, ys with
  | _, .Zero => some .Zero
  | _, .Constant 0 => some .Zero
  | .Constant 0, _ => some .Zero
  | .Zero, _ => some .Zero
  | .Constant 1, a => some a
  | .One, a => some a
  | a, .One => some a
  | a, .Constant 1 => some a
  | .Constant a, .Constant b => some (.Constant (a * b))
  | .Constant v, .Variable x
  | .Variable x, .Constant v => some (.MulNode (.Constant v) (.Variable x))
  | a, .Constant x => rec (.MulNode (.Constant x) a) conditions
  | .Constant x, .AddNode p q =>
      rec (.AddNode (.MulNode (.Constant x) p) (.MulNode (.Constant x) q)) conditions
  | .Variable v, .Variable w => some (.MulNode (.Variable v) (.Variable w))
  | .Constant x, .MulNode p q =>
      match rec (.MulNode (.Constant x) p) conditions with
      | none => none
      | some l => some (.MulNode l q)
  | .IfLessThen a b if_less if_not_less, other
  | other, .IfLessThen a b if_less if_not_less =>
      match rec (.MulNode if_less other) (.LessThan a b :: conditions) with
      | none => none
      | some l =>
          match rec (.MulNode if_not_less other) (.NotLess a b :: conditions) with
          | none => none
          | some r => some (.IfLessThen a b l r)
  | a, b => some (.MulNode a b)

/-- `Ast::simplify`, with an explicit fuel.  Every recursive `simplify` call
of the Rust source runs at one less fuel; `none` means the fuel ran out.
The `Rc`-shared `List<Condition>` is embedded as a Lean `List` built by
`::` (its `prepend`), iterated front to back (its `iter`). -/
def Ast.simplify : Nat → Ast → List Condition → Option Ast
  | 0, _, _ => none
  | n + 1, e, conditions =>
      match e with
      | .Constant i => some (.Constant i)
      | .Zero => some .Zero
      | .One => some .One
      | .Variable c => some (.Variable c)
      | .IfEqThen a0 b0 eq_res neq_res =>
          match Ast.simplify n a0 conditions with
          | none => none
          | some a =>
              match Ast.simplify n b0 conditions with
              | none => none
              | some b => ifEqSimp (fun x C => Ast.simplify n x C) conditions a b eq_res neq_res
      | .IfLessThen a0 b0 if_less if_geq =>
          match Ast.simplify n a0 conditions with
          | none => none
          | some a =>
              match Ast.simplify n b0 conditions with
              | none => none
              | some b => ifLessSimp (fun x C => Ast.simplify n x C) conditions a b if_less if_geq
      | .AddNode x y =>
          match Ast.simplify n x conditions with
          | none => none
          | some xs =>
              match Ast.simplify n y conditions with
              | none => none
              | some ys => addSimp (fun x C => Ast.simplify n x C) conditions xs ys
      | .MulNode x y =>
          match Ast.simplify n x conditions with
          | none => none
          | some xs =>
              match Ast.simplify n y conditions with
              | none => none
              | some ys => mulSimp (fun x C => Ast.simplify n x C) conditions xs ys

/-- The expression `if (x*Zero) == 0 then 1 else 2`, whose comparison
operand errors under the empty binding but simplifies to `Zero`. -/
def c1ast : Ast :=
  .IfEqThen (.MulNode (.Variable 'x') .Zero) (.Constant 0) (.Constant 1) (.Constant 2)

/-- `if (x + y) == x then 1 else 2`: simplification swaps the sum's
operands on every pass, flipping which `Err` the comparison sees. -/
def c8astA : Ast :=
  .IfEqThen (.AddNode (.Variable 'x') (.Variable 'y')) (.Variable 'x')
    (.Constant 1) (.Constant 2)

/-- The first simplification of `c8astA` under the empty condition list. -/
def c8s1A : Ast :=
  .IfEqThen (.AddNode (.Variable 'y') (.Variable 'x')) (.Variable 'x')
    (.Constant 1) (.Constant 2)

/-- The second simplification of `c8astA` under the empty condition list. -/
def c8s2A : Ast :=
  .IfEqThen (.AddNode (.Variable 'x') (.Variable 'y')) (.Variable 'x')
    (.Constant 1) (.Constant 2)

/-- `if ((x + 1) + 2) == 0 then 7 else 9`: its first simplification leaves
a sum that only the second pass normalizes into a form matching a recorded
condition. -/
def c8astB : Ast :=
  .IfEqThen (.AddNode (.AddNode (.Variable 'x') (.Constant 1)) (.Constant 2))
    (.Constant 0) (.Constant 7) (.Constant 9)

/-- A condition list asserting `3 + x == 0` (false under `x := 0`). -/
def c8condB : List Condition :=
  [.Equal (.AddNode (.Constant 3) (.Variable 'x')) (.Constant 0)]

/-- The first simplification of `c8astB` under `c8condB`. -/
def c8s1B : Ast :=
  .IfEqThen (.AddNode (.Constant 1) (.AddNode (.Constant 2) (.Variable 'x')))
    (.Constant 0) (.Constant 7) (.Constant 9)

/-- A condition holds under a binding, phrased through the source evaluator
`Ast.eval` at a binding defined on every variable: `Equal`/`NotEqual`
compare the two evaluations for equality, `LessThan`/`NotLess` compare them
in the `Result` order `exceptLt`. -/
def Condition.Holds (f : Char → Int) : Condition → Prop
  | .LessThan a b =>
      exceptLt (a.eval fun c => some (f c)) (b.eval fun c => some (f c)) = true
  | .Equal a b => a.eval (fun c => some (f c)) = b.eval (fun c => some (f c))
  | .NotEqual a b => a.eval (fun c => some (f c)) ≠ b.eval (fun c => some (f c))
  | .NotLess a b =>
      exceptLt (a.eval fun c => some (f c)) (b.eval fun c => some (f c)) = false

/-- The same notion through the total semantics `Ast.evalT` (equivalent to
`Condition.Holds` by `Condition.Holds_iff`); the induction below uses this
form. -/
def Condition.HoldsT (f : Char → Int) : Condition → Prop
  | .LessThan a b => a.evalT f < b.evalT f
  | .Equal a b => a.evalT f = b.evalT f
  | .NotEqual a b => a.evalT f ≠ b.evalT f
  | .NotLess a b => ¬ a.evalT f < b.evalT f

/-! ## The machine (`intcode.rs`) -/

/-- Memory access failures (`enum MemoryAccessError`).  `TooFar` carries the
payload of `MemoryAccessTooFarError`. -/
inductive MemoryAccessError where
  | TooFar : Nat → Nat → Bool → MemoryAccessError
  | Negative : MemoryAccessError
  | Overflow : MemoryAccessError
deriving DecidableEq

/-- Machine failures (`enum MachineExecutionError`). -/
inductive MachineExecutionError where
  | BadOpcode : Nat → Nat → MachineExecutionError
  | OutOfBounds : MemoryAccessError → MachineExecutionError
  | NoInput : MachineExecutionError
  | BadParameterMode : Nat → MachineExecutionError
deriving DecidableEq

/-- `enum StepIoResult`. -/
inductive StepIoResult (T : Type) where
  | Terminated : StepIoResult T
  | Output : T → StepIoResult T
  | AwaitingInput : Nat → StepIoResult T

/-- `enum StepResult`. -/
inductive StepResult (T : Type) where
  | Stepped : StepResult T
  | Io : StepIoResult T → StepResult T

/-- `enum ParameterMode`. -/
inductive ParameterMode where
  | Immediate | Position | Relative

/-- `ParameterMode::of_int`. -/
def ParameterMode.of_int : Nat → Option ParameterMode
  | 0 => some .Position
  | 1 => some .Immediate
  | 2 => some .Relative
  | _ => none

/-- The numeric-domain capability record (`num::NumImpl`): conversion of a
cell value to an address, to a relative-base offset, and the two identity
elements. -/
structure NumImpl (T : Type) where
  to_usize : T → Option Nat
  to_i32 : T → Option Int
  zero : T
  one : T

/-- The `i64` domain (`num::i64()`): cells are `Int`, addresses must be
non-negative, offsets must fit in `i32`. -/
def numI64 : NumImpl Int where
  to_usize := fun x => if x < 0 then none else some x.toNat
  to_i32 := fun x => if x < -(2 ^ 31) ∨ 2 ^ 31 - 1 < x then none else some x
  zero := 0
  one := 1

/-- `struct MachineState`: dense memory (`Vec<T>`), sparse overflow tier
(`HashMap<usize, T>`, embedded as its lookup function), program counter and
relative base. -/
structure MachineState (T : Type) where
  memory : List T
  sparse_memory : Nat → Option T
  pc : Nat
  relative_base : Int

namespace MachineState

variable {T : Type}

/-- `MachineState::new_with_memory`. -/
def new_with_memory (mem : List T) : MachineState T :=
  { memory := mem, sparse_memory := fun _ => none, pc := 0, relative_base := 0 }

/-- `MachineState::reset`: zero the program counter and replace the dense
memory with the new image (`clear` followed by `extend`).  The sparse tier
and the relative base are not touched by the Rust code. -/
def reset (st : MachineState T) (mem : List T) : MachineState T :=
  { st with pc := 0, memory := mem }

/-- `MachineState::set_mem_elt`: write within the dense region if the index
is in range, otherwise insert into the sparse tier. -/
def set_mem_elt (st : MachineState T) (i : Nat) (new_val : T) : MachineState T :=
  if i < st.memory.length then { st with memory := st.memory.set i new_val }
  else { st with sparse_memory := fun j => if j = i then some new_val else st.sparse_memory j }

/-- `MachineState::read_mem_elt`: read the dense region if in range,
otherwise the sparse tier, defaulting to `num.zero`. -/
def read_mem_elt (st : MachineState T) (i : Nat) (num : NumImpl T) : T :=
  if h : i < st.memory.length then st.memory.get ⟨i, h⟩
  else
    match st.sparse_memory i with
    | none => num.zero
    | some entry => entry

/-- `MachineState::read_param`: resolve one operand under a parameter
mode. -/
def read_param (st : MachineState T) (i : Nat) (mode : ParameterMode) (num : NumImpl T) :
    Except MemoryAccessError T :=
  match mode with
  | .Immediate => .ok (st.read_mem_elt i num)
  | .Position =>
      match num.to_usize (st.read_mem_elt i num) with
      | none => .error .Negative
      | some pos => .ok (st.read_mem_elt pos num)
  | .Relative =>
      match num.to_i32 (st.read_mem_elt i num) with
      | none => .error .Overflow
      | some offset =>
          let target := st.relative_base + offset
          if 0 ≤ target then .ok (st.read_mem_elt target.toNat num)
          else .error .Negative

/-- `MachineState::process_binary_op` for opcodes 1, 2, 7, 8: decode the two
read modes, read both operands, decode the destination mode (immediate is a
decode error; a relative destination whose offset fails `to_i32` is reported
as `OutOfBounds(Negative)`), then write the combined result and advance the
program counter by 4.  Returns the state as it stands on every exit. -/
def process_binary_op (st : MachineState T) (opcode : Nat) (process : T → T → T)
    (num : NumImpl T) : MachineState T × Except MachineExecutionError (StepResult T) :=
  if 100000 ≤ opcode then (st, .error (.BadParameterMode opcode))
  else
    match ParameterMode.of_int ((opcode / 100) % 10) with
    | none => (st, .error (.BadParameterMode opcode))
    | some mode_1 =>
        match ParameterMode.of_int ((opcode / 1000) % 10) with
        | none => (st, .error (.BadParameterMode opcode))
        | some mode_2 =>
            match st.read_param (st.pc + 1) mode_1 num with
            | .error e => (st, .error (.OutOfBounds e))
            | .ok arg_1 =>
                match st.read_param (st.pc + 2) mode_2 num with
                | .error e => (st, .error (.OutOfBounds e))
                | .ok arg_2 =>
                    let write := fun (result_pos : Nat) =>
                      let st1 := st.set_mem_elt result_pos (process arg_1 arg_2)
                      (({ st1 with pc := st1.pc + 4 } : MachineState T),
                        (.ok .Stepped : Except MachineExecutionError (StepResult T)))
                    match ParameterMode.of_int ((opcode / 10000) % 10) with
                    | none => (st, .error (.BadParameterMode opcode))
                    | some .Relative =>
                        match num.to_i32 (st.read_mem_elt (st.pc + 3) num) with
                        | none => (st, .error (.OutOfBounds .Negative))
                        | some offset =>
                            let target := st.relative_base + offset
                            if target < 0 then (st, .error (.OutOfBounds .Negative))
                            else write target.toNat
                    | some .Position =>
                        match num.to_usize (st.read_mem_elt (st.pc + 3) num) with
                        | none => (st, .error (.OutOfBounds .Negative))
                        | some pos => write pos
                    | some .Immediate => (st, .error (.BadParameterMode opcode))

/-- The `3 => ...` arm of `one_step`'s opcode match (await input). -/
def step_input (st : MachineState T) (opcode : Nat) (num : NumImpl T) :
    MachineState T × Except MachineExecutionError (StepResult T) :=
  if 1000 ≤ opcode then (st, .error (.BadParameterMode opcode))
  else
    match ParameterMode.of_int ((opcode / 100) % 10) with
    | none => (st, .error (.BadParameterMode opcode))
    | some .Immediate => (st, .error (.BadParameterMode opcode))
    | some .Position =>
        match num.to_usize (st.read_mem_elt (st.pc + 1) num) with
        | none => (st, .error (.OutOfBounds .Negative))
        | some location =>
            ({ st with pc := st.pc + 2 }, .ok (.Io (.AwaitingInput location)))
    | some .Relative =>
        match num.to_i32 (st.read_mem_elt (st.pc + 1) num) with
        | none => (st, .error (.OutOfBounds .Overflow))
        | some offset =>
            let target := st.relative_base + offset
            if target < 0 then (st, .error (.OutOfBounds .Negative))
            else ({ st with pc := st.pc + 2 }, .ok (.Io (.AwaitingInput target.toNat)))

/-- The `4 => ...` arm of `one_step`'s opcode match (output). -/
def step_output (st : MachineState T) (opcode : Nat) (num : NumImpl T) :
    MachineState T × Except MachineExecutionError (StepResult T) :=
  if 1000 ≤ opcode then (st, .error (.BadParameterMode opcode))
  else
    match ParameterMode.of_int ((opcode / 100) % 10) with
    | none => (st, .error (.BadParameterMode opcode))
    | some mode =>
        match st.read_param (st.pc + 1) mode num with
        | .error e => (st, .error (.OutOfBounds e))
        | .ok to_output => ({ st with pc := st.pc + 2 }, .ok (.Io (.Output to_output)))

/-- The `5 => ...` and `6 => ...` arms of `one_step`'s opcode match
(jump-if-true / jump-if-false; `jump_if` tells which comparison with
`num.zero` triggers the jump). -/
def step_jump (st : MachineState T) (opcode : Nat) (jump_if : T → Bool) (num : NumImpl T) :
    MachineState T × Except MachineExecutionError (StepResult T) :=
  if 10000 ≤ opcode then (st, .error (.BadParameterMode opcode))
  else
    match ParameterMode.of_int ((opcode / 100) % 10) with
    | none => (st, .error (.BadParameterMode opcode))
    | some mode_comparand =>
        match st.read_param (st.pc + 1) mode_comparand num with
        | .error e => (st, .error (.OutOfBounds e))
        | .ok comparand =>
            if jump_if comparand then
              match ParameterMode.of_int ((opcode / 1000) % 10) with
              | none => (st, .error (.BadParameterMode opcode))
              | some mode_target =>
                  match st.read_param (st.pc + 2) mode_target num with
                  | .error e => (st, .error (.OutOfBounds e))
                  | .ok target =>
                      match num.to_usize target with
                      | none => (st, .error (.OutOfBounds .Negative))
                      | some p => ({ st with pc := p }, .ok .Stepped)
            else ({ st with pc := st.pc + 3 }, .ok .Stepped)

/-- The `9 => ...` arm of `one_step`'s opcode match (adjust the relative
base). -/
def step_adjust_base (st : MachineState T) (opcode : Nat) (num : NumImpl T) :
    MachineState T × Except MachineExecutionError (StepResult T) :=
  if 1000 ≤ opcode then (st, .error (.BadParameterMode opcode))
  else
    match ParameterMode.of_int ((opcode / 100) % 10) with
    | none => (st, .error (.BadParameterMode opcode))
    | some mode =>
        match st.read_param (st.pc + 1) mode num with
        | .error e => (st, .error (.OutOfBounds e))
        | .ok value =>
            match num.to_i32 value with
            | none => (st, .error (.OutOfBounds .Overflow))
            | some increment =>
                ({ st with relative_base := st.relative_base + increment,
                           pc := st.pc + 2 }, .ok .Stepped)

/-- The `7`/`8` arms: `self.process_binary_op(..)?; Ok(StepResult::Stepped)`
— the callee's state is kept either way, its success value replaced by
`Stepped`. -/
def step_compare (st : MachineState T) (opcode : Nat) (process : T → T → T)
    (num : NumImpl T) : MachineState T × Except MachineExecutionError (StepResult T) :=
  let res := st.process_binary_op opcode process num
  (res.1, match res.2 with
    | .error e => .error e
    | .ok _ => .ok .Stepped)

/-- The `match opcode % 100` dispatch of `MachineState::one_step`, embedded
as an equality chain; each multi-line arm's body is the correspondingly
named `step_*` definition above.  The Rust method mutates `self` and
returns a `Result`; the embedding returns the state as it stands at the
return point together with that `Result`. -/
def step_dispatch [Add T] [Mul T] [LinearOrder T] (st : MachineState T) (opcode : Nat)
    (num : NumImpl T) : MachineState T × Except MachineExecutionError (StepResult T) :=
  let r := opcode % 100
  if r = 1 then st.process_binary_op opcode (fun a b => a + b) num
  else if r = 2 then st.process_binary_op opcode (fun a b => a * b) num
  else if r = 3 then st.step_input opcode num
  else if r = 4 then st.step_output opcode num
  else if r = 5 then st.step_jump opcode (fun comparand => comparand ≠ num.zero) num
  else if r = 6 then st.step_jump opcode (fun comparand => comparand = num.zero) num
  else if r = 7 then st.step_compare opcode (fun a b => if a < b then num.one else num.zero) num
  else if r = 8 then st.step_compare opcode (fun a b => if a = b then num.one else num.zero) num
  else if r = 9 then st.step_adjust_base opcode num
  else if r = 99 then
    if opcode ≠ 99 then (st, .error (.BadParameterMode opcode))
    else (st, .ok (.Io .Terminated))
  else (st, .error (.BadOpcode r st.pc))

/-- `MachineState::one_step`: decode the cell at the program counter and
execute one instruction via `step_dispatch`. -/
def one_step [Add T] [Mul T] [LinearOrder T] (st : MachineState T) (num : NumImpl T) :
    MachineState T × Except MachineExecutionError (StepResult T) :=
  match num.to_usize (st.read_mem_elt st.pc num) with
  | none => (st, .error (.OutOfBounds .Negative))
  | some opcode => st.step_dispatch opcode num

end MachineState

/-- A concrete machine state with a non-zero relative base and a non-empty
sparse tier, exercising `reset`. -/
def c3state : MachineState Int :=
  { memory := [99], sparse_memory := fun j => if j = 5 then some 7 else none,
    pc := 3, relative_base := 4 }

/-- A concrete machine whose opcode cell is negative, so `one_step` fails. -/
def c4state : MachineState Int := MachineState.new_with_memory [-1]

/-- A concrete machine whose instruction `10001` has remainder 1 and an
immediate destination digit, but whose first source operand (position mode,
raw value `-5`) fails to resolve. -/
def c5state : MachineState Int := MachineState.new_with_memory [10001, -5, 0, 0]

/-- A concrete machine whose instruction `21101` (remainder 1, immediate
sources, relative destination) has a destination offset `2^31` too large for
`to_i32`. -/
def c9state : MachineState Int := MachineState.new_with_memory [21101, 2, 3, 2 ^ 31, 99]

/-- A concrete machine whose instruction `11101` has immediate sources and
an immediate destination digit. -/
def c5wit : MachineState Int := MachineState.new_with_memory [11101, 5, 6, 0]

/-! ## Theorems -/

/-- Under a binding defined on every variable, `Ast.eval` always succeeds and
agrees with the total semantics `Ast.evalT`. -/
theorem Ast.eval_total (e : Ast) (f : Char → Int) :
    e.eval (fun c => some (f c)) = .ok (e.evalT f) := by
  induction e with
  | Constant i => rfl
  | Zero => rfl
  | One => rfl
  | Variable c => rfl
  | AddNode x y ihx ihy => simp [Ast.eval, Ast.evalT, ihx, ihy]
  | MulNode x y ihx ihy => simp [Ast.eval, Ast.evalT, ihx, ihy]
  | IfEqThen a b p q iha ihb ihp ihq =>
      simp only [Ast.eval, Ast.evalT, iha, ihb, exceptEq]
      by_cases h : a.evalT f = b.evalT f <;> simp [h, ihp, ihq]
  | IfLessThen a b p q iha ihb ihp ihq =>
      simp only [Ast.eval, Ast.evalT, iha, ihb, exceptLt]
      by_cases h : a.evalT f < b.evalT f <;> simp [h, ihp, ihq]

/-- `strict_equal` expressions have the same total semantics. -/
theorem Ast.strict_equal_evalT (a : Ast) :
    ∀ b : Ast, a.strict_equal b = true → ∀ f : Char → Int, a.evalT f = b.evalT f := by
  induction a with
  | Constant i => intro b h f; cases b <;> simp_all [Ast.strict_equal, Ast.evalT]
  | Zero => intro b h f; cases b <;> simp_all [Ast.strict_equal, Ast.evalT]
  | One => intro b h f; cases b <;> simp_all [Ast.strict_equal, Ast.evalT]
  | Variable c => intro b h f; cases b <;> simp_all [Ast.strict_equal, Ast.evalT]
  | AddNode x y ihx ihy =>
      intro b h f
      cases b
      case AddNode x2 y2 =>
        simp only [Ast.strict_equal, Bool.and_eq_true] at h
        simp only [Ast.evalT]
        rw [ihx x2 h.1 f, ihy y2 h.2 f]
      all_goals simp [Ast.strict_equal] at h
  | MulNode x y ihx ihy =>
      intro b h f
      cases b
      case MulNode x2 y2 =>
        simp only [Ast.strict_equal, Bool.and_eq_true] at h
        simp only [Ast.evalT]
        rw [ihx x2 h.1 f, ihy y2 h.2 f]
      all_goals simp [Ast.strict_equal] at h
  | IfEqThen p q r s ihp ihq ihr ihs =>
      intro b h f
      cases b
      case IfEqThen p2 q2 r2 s2 =>
        simp only [Ast.strict_equal, Bool.and_eq_true] at h
        obtain ⟨⟨⟨h1, h2⟩, h3⟩, h4⟩ := h
        simp only [Ast.evalT]
        rw [ihp p2 h1 f, ihq q2 h2 f, ihr r2 h3 f, ihs s2 h4 f]
      all_goals simp [Ast.strict_equal] at h
  | IfLessThen p q r s ihp ihq ihr ihs =>
      intro b h f
      cases b
      case IfLessThen p2 q2 r2 s2 =>
        simp only [Ast.strict_equal, Bool.and_eq_true] at h
        obtain ⟨⟨⟨h1, h2⟩, h3⟩, h4⟩ := h
        simp only [Ast.evalT]
        rw [ihp p2 h1 f, ihq q2 h2 f, ihr r2 h3 f, ihs s2 h4 f]
      all_goals simp [Ast.strict_equal] at h

/-- Soundness of the `IfEqThen` condition scan: a hit decides equality of
the two matched operands' values. -/
theorem findEqMatch_sound (f : Char → Int) (a b : Ast) (C : List Condition)
    (hC : ∀ c ∈ C, Condition.HoldsT f c) (tb : Bool)
    (h : findEqMatch a b C = some tb) :
    (tb = true → a.evalT f = b.evalT f) ∧ (tb = false → a.evalT f ≠ b.evalT f) := by
  induction C with
  | nil => simp [findEqMatch] at h
  | cons c rest ih =>
      have hc : Condition.HoldsT f c := hC c (by simp)
      have hrest : ∀ c ∈ rest, Condition.HoldsT f c := fun c hm => hC c (by simp [hm])
      cases c with
      | Equal v1 v2 =>
          simp only [findEqMatch] at h
          by_cases hs : (a.strict_equal v1 && b.strict_equal v2) = true
          · rw [if_pos hs] at h
            obtain ⟨h1, h2⟩ := Bool.and_eq_true_iff.mp hs
            injection h with h
            subst h
            refine ⟨fun _ => ?_, by simp⟩
            rw [Ast.strict_equal_evalT a v1 h1 f, Ast.strict_equal_evalT b v2 h2 f]
            exact hc
          · rw [if_neg hs] at h
            exact ih hrest h
      | NotEqual v1 v2 =>
          simp only [findEqMatch] at h
          by_cases hs : (a.strict_equal v1 && b.strict_equal v2) = true
          · rw [if_pos hs] at h
            obtain ⟨h1, h2⟩ := Bool.and_eq_true_iff.mp hs
            injection h with h
            subst h
            refine ⟨by simp, fun _ => ?_⟩
            rw [Ast.strict_equal_evalT a v1 h1 f, Ast.strict_equal_evalT b v2 h2 f]
            exact hc
          · rw [if_neg hs] at h
            exact ih hrest h
      | LessThan v1 v2 =>
          simp only [findEqMatch] at h
          by_cases hs : (a.strict_equal v1 && b.strict_equal v2) = true
          · rw [if_pos hs] at h
            obtain ⟨h1, h2⟩ := Bool.and_eq_true_iff.mp hs
            injection h with h
            subst h
            refine ⟨by simp, fun _ => ?_⟩
            rw [Ast.strict_equal_evalT a v1 h1 f, Ast.strict_equal_evalT b v2 h2 f]
            exact ne_of_lt hc
          · rw [if_neg hs] at h
            exact ih hrest h
      | NotLess v1 v2 =>
          simp only [findEqMatch] at h
          exact ih hrest h

/-- Soundness of the `IfLessThen` condition scan: a hit decides the
less-than comparison of the two matched operands' values. -/
theorem findLessMatch_sound (f : Char → Int) (a b : Ast) (C : List Condition)
    (hC : ∀ c ∈ C, Condition.HoldsT f c) (tb : Bool)
    (h : findLessMatch a b C = some tb) :
    (tb = true → a.evalT f < b.evalT f) ∧ (tb = false → ¬ a.evalT f < b.evalT f) := by
  induction C with
  | nil => simp [findLessMatch] at h
  | cons c rest ih =>
      have hc : Condition.HoldsT f c := hC c (by simp)
      have hrest : ∀ c ∈ rest, Condition.HoldsT f c := fun c hm => hC c (by simp [hm])
      cases c with
      | Equal v1 v2 =>
          simp only [findLessMatch] at h
          by_cases hs : (a.strict_equal v1 && b.strict_equal v2) = true
          · rw [if_pos hs] at h
            obtain ⟨h1, h2⟩ := Bool.and_eq_true_iff.mp hs
            injection h with h
            subst h
            refine ⟨by simp, fun _ => ?_⟩
            rw [Ast.strict_equal_evalT a v1 h1 f, Ast.strict_equal_evalT b v2 h2 f]
            rw [hc]
            exact lt_irrefl _
          · rw [if_neg hs] at h
            exact ih hrest h
      | LessThan v1 v2 =>
          simp only [findLessMatch] at h
          by_cases hs : (a.strict_equal v1 && b.strict_equal v2) = true
          · rw [if_pos hs] at h
            obtain ⟨h1, h2⟩ := Bool.and_eq_true_iff.mp hs
            injection h with h
            subst h
            refine ⟨fun _ => ?_, by simp⟩
            rw [Ast.strict_equal_evalT a v1 h1 f, Ast.strict_equal_evalT b v2 h2 f]
            exact hc
          · rw [if_neg hs] at h
            exact ih hrest h
      | NotLess v1 v2 =>
          simp only [findLessMatch] at h
          by_cases hs : (a.strict_equal v1 && b.strict_equal v2) = true
          · rw [if_pos hs] at h
            obtain ⟨h1, h2⟩ := Bool.and_eq_true_iff.mp hs
            injection h with h
            subst h
            refine ⟨by simp, fun _ => ?_⟩
            rw [Ast.strict_equal_evalT a v1 h1 f, Ast.strict_equal_evalT b v2 h2 f]
            exact hc
          · rw [if_neg hs] at h
            exact ih hrest h
      | NotEqual v1 v2 =>
          simp only [findLessMatch] at h
          exact ih hrest h

/-- Soundness of the `IfLessThen` simplification step, for any recursive
simplifier `rec` that is itself sound. -/
theorem ifLessSimp_sound (rec : Ast → List Condition → Option Ast) (f : Char → Int)
    (hrec : ∀ e C s, (∀ c ∈ C, Condition.HoldsT f c) → rec e C = some s →
      s.evalT f = e.evalT f)
    (C : List Condition) (hC : ∀ c ∈ C, Condition.HoldsT f c)
    (a b p q s : Ast) (hs : ifLessSimp rec C a b p q = some s) :
    s.evalT f = if a.evalT f < b.evalT f then p.evalT f else q.evalT f := by
  unfold ifLessSimp at hs
  split at hs
  · rename_i hfm
    have := (findLessMatch_sound f a b C hC true hfm).1 rfl
    rw [if_pos this]
    exact hrec p C s hC hs
  · rename_i hfm
    have := (findLessMatch_sound f a b C hC false hfm).2 rfl
    rw [if_neg this]
    exact hrec q C s hC hs
  · split at hs
    · simp at hs
    · rename_i lt hp
      split at hs
      · simp at hs
      · rename_i ge hq
        injection hs with hs
        subst hs
        simp only [Ast.evalT]
        by_cases hlt : a.evalT f < b.evalT f
        · rw [if_pos hlt, if_pos hlt]
          refine hrec p _ lt ?_ hp
          intro c hm
          rcases List.mem_cons.mp hm with h | h
          · subst h; exact hlt
          · exact hC c h
        · rw [if_neg hlt, if_neg hlt]
          refine hrec q _ ge ?_ hq
          intro c hm
          rcases List.mem_cons.mp hm with h | h
          · subst h; exact hlt
          · exact hC c h

/-- Soundness of the `IfEqThen` simplification step, for any recursive
simplifier `rec` that is itself sound. -/
theorem ifEqSimp_sound (rec : Ast → List Condition → Option Ast) (f : Char → Int)
    (hrec : ∀ e C s, (∀ c ∈ C, Condition.HoldsT f c) → rec e C = some s →
      s.evalT f = e.evalT f)
    (C : List Condition) (hC : ∀ c ∈ C, Condition.HoldsT f c)
    (a b p q s : Ast) (hs : ifEqSimp rec C a b p q = some s) :
    s.evalT f = if a.evalT f = b.evalT f then p.evalT f else q.evalT f := by
  unfold ifEqSimp at hs
  split at hs
  · rename_i hfm
    have := (findEqMatch_sound f a b C hC true hfm).1 rfl
    rw [if_pos this]
    exact hrec p C s hC hs
  · rename_i hfm
    have := (findEqMatch_sound f a b C hC false hfm).2 rfl
    rw [if_neg this]
    exact hrec q C s hC hs
  · split at hs
    -- (Zero, Zero)
    · rw [if_pos rfl]
      exact hrec p C s hC hs
    -- (Constant ca, Constant cb)
    · rename_i ca cb hnone
      by_cases hab : ca = cb
      · rw [if_pos hab] at hs
        rw [if_pos (by simp [Ast.evalT, hab])]
        exact hrec p C s hC hs
      · rw [if_neg hab] at hs
        rw [if_neg (by simp [Ast.evalT, hab])]
        exact hrec q C s hC hs
    -- (Constant 0, Zero)
    · rw [if_pos (by simp [Ast.evalT])]
      exact hrec p C s hC hs
    -- (Constant ca, Zero), ca ≠ 0
    · rename_i ca hne hnone
      rw [if_neg (by simp [Ast.evalT]; exact hne)]
      exact hrec q C s hC hs
    -- (Constant 1, One)
    · rw [if_pos (by simp [Ast.evalT])]
      exact hrec p C s hC hs
    -- (Constant ca, One), ca ≠ 1
    · rename_i ca hne hnone
      rw [if_neg (by simp [Ast.evalT]; exact hne)]
      exact hrec q C s hC hs
    -- (Zero, Constant 0)
    · rw [if_pos (by simp [Ast.evalT])]
      exact hrec p C s hC hs
    -- (Zero, Constant cb), cb ≠ 0
    · rename_i cb hne hnone
      rw [if_neg (by simp [Ast.evalT]; intro hx; exact hne hx.symm)]
      exact hrec q C s hC hs
    -- (Zero, One)
    · rw [if_neg (by norm_num [Ast.evalT])]
      exact hrec q C s hC hs
    -- (One, Constant 1)
    · rw [if_pos (by simp [Ast.evalT])]
      exact hrec p C s hC hs
    -- (One, Constant cb), cb ≠ 1
    · rename_i cb hne hnone
      rw [if_neg (by simp [Ast.evalT]; intro hx; exact hne hx.symm)]
      exact hrec q C s hC hs
    -- (One, Zero)
    · rw [if_neg (by norm_num [Ast.evalT])]
      exact hrec q C s hC hs
    -- (One, One)
    · rw [if_pos rfl]
      exact hrec p C s hC hs
    -- (Variable x, Variable y)
    · rename_i x y hnone
      by_cases hxy : x = y
      · rw [if_pos hxy] at hs
        rw [if_pos (by simp [Ast.evalT, hxy])]
        exact hrec p C s hC hs
      · rw [if_neg hxy] at hs
        split at hs
        · simp at hs
        · rename_i et hp
          split at hs
          · simp at hs
          · rename_i nt hq
            injection hs with hs
            subst hs
            simp only [Ast.evalT]
            by_cases heq : f x = f y
            · rw [if_pos heq, if_pos heq]
              refine hrec p _ et ?_ hp
              intro c hm
              rcases List.mem_cons.mp hm with h | h
              · subst h; exact heq
              · exact hC c h
            · rw [if_neg heq, if_neg heq]
              refine hrec q _ nt ?_ hq
              intro c hm
              rcases List.mem_cons.mp hm with h | h
              · subst h; exact heq
              · exact hC c h
    -- catch-all rebuild
    · split at hs
      · simp at hs
      · rename_i et hp
        split at hs
        · simp at hs
        · rename_i nt hq
          injection hs with hs
          subst hs
          simp only [Ast.evalT]
          by_cases heq : a.evalT f = b.evalT f
          · rw [if_pos heq, if_pos heq]
            refine hrec p _ et ?_ hp
            intro c hm
            rcases List.mem_cons.mp hm with h | h
            · subst h; exact heq
            · exact hC c h
          · rw [if_neg heq, if_neg heq]
            refine hrec q _ nt ?_ hq
            intro c hm
            rcases List.mem_cons.mp hm with h | h
            · subst h; exact heq
            · exact hC c h

/-- Soundness of the `AddNode` simplification step, for any recursive
simplifier `rec` that is itself sound. -/
theorem addSimp_sound (rec : Ast → List Condition → Option Ast) (f : Char → Int)
    (hrec : ∀ e C s, (∀ c ∈ C, Condition.HoldsT f c) → rec e C = some s →
      s.evalT f = e.evalT f)
    (C : List Condition) (hC : ∀ c ∈ C, Condition.HoldsT f c)
    (xs ys s : Ast) (hs : addSimp rec C xs ys = some s) :
    s.evalT f = xs.evalT f + ys.evalT f := by
  unfold addSimp at hs
  split at hs
  all_goals try (injection hs with hs; subst hs; simp only [Ast.evalT]; try ring)
  -- (Constant v, AddNode p q): re-simplify the left association
  · split at hs
    · simp at hs
    · rename_i l hl
      injection hs with hs
      subst hs
      have hval := hrec _ C l hC hl
      simp only [Ast.evalT] at hval ⊢
      rw [hval]
      ring
  -- (One, AddNode p q)
  · split at hs
    · simp at hs
    · rename_i l hl
      injection hs with hs
      subst hs
      have hval := hrec _ C l hC hl
      simp only [Ast.evalT] at hval ⊢
      rw [hval]
      ring
  -- (AddNode p q, other): re-associate to the right
  · split at hs
    · simp at hs
    · rename_i r hr
      injection hs with hs
      subst hs
      have hval := hrec _ C r hC hr
      simp only [Ast.evalT] at hval ⊢
      rw [hval]
      ring
  -- (IfLessThen a b il inl, Constant c): push the addition inside
  · split at hs
    · simp at hs
    · rename_i l hl
      split at hs
      · simp at hs
      · rename_i r hr
        injection hs with hs
        subst hs
        simp only [Ast.evalT]
        split
        · rename_i hlt
          have hval := hrec _ _ l ?_ hl
          · simp only [Ast.evalT] at hval
            rw [hval]
          · intro c hm
            rcases List.mem_cons.mp hm with h | h
            · subst h; exact hlt
            · exact hC c h
        · rename_i hlt
          have hval := hrec _ _ r ?_ hr
          · simp only [Ast.evalT] at hval
            rw [hval]
          · intro c hm
            rcases List.mem_cons.mp hm with h | h
            · subst h; exact hlt
            · exact hC c h
  -- (Constant c, IfLessThen a b il inl): the mirrored push
  · split at hs
    · simp at hs
    · rename_i l hl
      split at hs
      · simp at hs
      · rename_i r hr
        injection hs with hs
        subst hs
        simp only [Ast.evalT]
        split
        · rename_i hlt
          have hval := hrec _ _ l ?_ hl
          · simp only [Ast.evalT] at hval
            rw [hval]
            ring
          · intro c hm
            rcases List.mem_cons.mp hm with h | h
            · subst h; exact hlt
            · exact hC c h
        · rename_i hlt
          have hval := hrec _ _ r ?_ hr
          · simp only [Ast.evalT] at hval
            rw [hval]
            ring
          · intro c hm
            rcases List.mem_cons.mp hm with h | h
            · subst h; exact hlt
            · exact hC c h

/-- Soundness of the `MulNode` simplification step, for any recursive
simplifier `rec` that is itself sound. -/
theorem mulSimp_sound (rec : Ast → List Condition → Option Ast) (f : Char → Int)
    (hrec : ∀ e C s, (∀ c ∈ C, Condition.HoldsT f c) → rec e C = some s →
      s.evalT f = e.evalT f)
    (C : List Condition) (hC : ∀ c ∈ C, Condition.HoldsT f c)
    (xs ys s : Ast) (hs : mulSimp rec C xs ys = some s) :
    s.evalT f = xs.evalT f * ys.evalT f := by
  unfold mulSimp at hs
  split at hs
  all_goals try (injection hs with hs; subst hs; simp only [Ast.evalT]; try ring)
  -- (a, Constant x): commute and re-simplify
  · have hval := hrec _ C s hC hs
    simp only [Ast.evalT] at hval
    rw [hval]
    simp only [Ast.evalT]
    ring
  -- (Constant x, AddNode p q): distribute and re-simplify
  · have hval := hrec _ C s hC hs
    simp only [Ast.evalT] at hval
    rw [hval]
    simp only [Ast.evalT]
    ring
  -- (Constant x, MulNode p q): re-associate
  · split at hs
    · simp at hs
    · rename_i l hl
      injection hs with hs
      subst hs
      have hval := hrec _ C l hC hl
      simp only [Ast.evalT] at hval ⊢
      rw [hval]
      ring
  -- (IfLessThen a b il inl, other): push the multiplication inside
  · split at hs
    · simp at hs
    · rename_i l hl
      split at hs
      · simp at hs
      · rename_i r hr
        injection hs with hs
        subst hs
        simp only [Ast.evalT]
        split
        · rename_i hlt
          have hval := hrec _ _ l ?_ hl
          · simp only [Ast.evalT] at hval
            rw [hval]
          · intro c hm
            rcases List.mem_cons.mp hm with h | h
            · subst h; exact hlt
            · exact hC c h
        · rename_i hlt
          have hval := hrec _ _ r ?_ hr
          · simp only [Ast.evalT] at hval
            rw [hval]
          · intro c hm
            rcases List.mem_cons.mp hm with h | h
            · subst h; exact hlt
            · exact hC c h
  -- (other, IfLessThen a b il inl): the mirrored push
  · split at hs
    · simp at hs
    · rename_i l hl
      split at hs
      · simp at hs
      · rename_i r hr
        injection hs with hs
        subst hs
        simp only [Ast.evalT]
        split
        · rename_i hlt
          have hval := hrec _ _ l ?_ hl
          · simp only [Ast.evalT] at hval
            rw [hval]
            ring
          · intro c hm
            rcases List.mem_cons.mp hm with h | h
            · subst h; exact hlt
            · exact hC c h
        · rename_i hlt
          have hval := hrec _ _ r ?_ hr
          · simp only [Ast.evalT] at hval
            rw [hval]
            ring
          · intro c hm
            rcases List.mem_cons.mp hm with h | h
            · subst h; exact hlt
            · exact hC c h

/-- Master soundness theorem for the simplifier: under a binding defined on
every variable and satisfying every path condition, a successful
`Ast.simplify` preserves the total semantics, at every fuel. -/
theorem Ast.simplify_sound (n : Nat) :
    ∀ (e : Ast) (C : List Condition) (s : Ast) (f : Char → Int),
      (∀ c ∈ C, Condition.HoldsT f c) → Ast.simplify n e C = some s →
      s.evalT f = e.evalT f := by
  induction n with
  | zero => intro e C s f hC hs; simp [Ast.simplify] at hs
  | succ n ih =>
      intro e C s f hC hs
      cases e with
      | Constant i =>
          simp only [Ast.simplify, Option.some.injEq] at hs
          subst hs; rfl
      | Zero =>
          simp only [Ast.simplify, Option.some.injEq] at hs
          subst hs; rfl
      | One =>
          simp only [Ast.simplify, Option.some.injEq] at hs
          subst hs; rfl
      | Variable c =>
          simp only [Ast.simplify, Option.some.injEq] at hs
          subst hs; rfl
      | AddNode x y =>
          simp only [Ast.simplify] at hs
          split at hs
          · simp at hs
          · rename_i xs hx
            split at hs
            · simp at hs
            · rename_i ys hy
              have hadd := addSimp_sound _ f (fun e C s hC hs => ih e C s f hC hs)
                C hC xs ys s hs
              rw [hadd, ih x C xs f hC hx, ih y C ys f hC hy]
              rfl
      | MulNode x y =>
          simp only [Ast.simplify] at hs
          split at hs
          · simp at hs
          · rename_i xs hx
            split at hs
            · simp at hs
            · rename_i ys hy
              have hmul := mulSimp_sound _ f (fun e C s hC hs => ih e C s f hC hs)
                C hC xs ys s hs
              rw [hmul, ih x C xs f hC hx, ih y C ys f hC hy]
              rfl
      | IfEqThen a0 b0 p q =>
          simp only [Ast.simplify] at hs
          split at hs
          · simp at hs
          · rename_i a ha
            split at hs
            · simp at hs
            · rename_i b hb
              have hif := ifEqSimp_sound _ f (fun e C s hC hs => ih e C s f hC hs)
                C hC a b p q s hs
              rw [hif, ih a0 C a f hC ha, ih b0 C b f hC hb]
              rfl
      | IfLessThen a0 b0 p q =>
          simp only [Ast.simplify] at hs
          split at hs
          · simp at hs
          · rename_i a ha
            split at hs
            · simp at hs
            · rename_i b hb
              have hif := ifLessSimp_sound _ f (fun e C s hC hs => ih e C s f hC hs)
                C hC a b p q s hs
              rw [hif, ih a0 C a f hC ha, ih b0 C b f hC hb]
              rfl

/-- The two formulations of a condition holding under a total binding
agree. -/
theorem Condition.Holds_iff (f : Char → Int) (c : Condition) :
    Condition.Holds f c ↔ Condition.HoldsT f c := by
  cases c with
  | LessThan a b => simp [Condition.Holds, Condition.HoldsT, Ast.eval_total, exceptLt]
  | Equal a b => simp [Condition.Holds, Condition.HoldsT, Ast.eval_total]
  | NotEqual a b => simp [Condition.Holds, Condition.HoldsT, Ast.eval_total]
  | NotLess a b => simp [Condition.Holds, Condition.HoldsT, Ast.eval_total, exceptLt]

namespace MachineState

variable {T : Type}

/-- `set_mem_elt` never changes the dense region's length. -/
theorem set_mem_elt_length (st : MachineState T) (i : Nat) (v : T) :
    (st.set_mem_elt i v).memory.length = st.memory.length := by
  unfold set_mem_elt
  split <;> simp

/-- Shared frame lemma: whenever `process_binary_op` fails, it returns the
state it was given. -/
theorem process_binary_op_frame (st : MachineState T) (u : Nat) (f : T → T → T)
    (num : NumImpl T) (e : MachineExecutionError) :
    (st.process_binary_op u f num).2 = .error e → (st.process_binary_op u f num).1 = st := by
  simp only [process_binary_op]
  repeat' split
  all_goals intro h
  all_goals first
    | rfl
    | simp at h

/-- Shared lemma: `process_binary_op` never changes the dense region's
length. -/
theorem process_binary_op_length (st : MachineState T) (u : Nat) (f : T → T → T)
    (num : NumImpl T) :
    (st.process_binary_op u f num).1.memory.length = st.memory.length := by
  simp only [process_binary_op]
  repeat' split
  all_goals first
    | rfl
    | simp [set_mem_elt_length]

/-- Frame lemma for the input arm. -/
theorem step_input_frame (st : MachineState T) (u : Nat) (num : NumImpl T)
    (e : MachineExecutionError) :
    (st.step_input u num).2 = .error e → (st.step_input u num).1 = st := by
  simp only [step_input]
  repeat' split
  all_goals intro h
  all_goals first | rfl | simp at h

/-- Frame lemma for the output arm. -/
theorem step_output_frame (st : MachineState T) (u : Nat) (num : NumImpl T)
    (e : MachineExecutionError) :
    (st.step_output u num).2 = .error e → (st.step_output u num).1 = st := by
  simp only [step_output]
  repeat' split
  all_goals intro h
  all_goals first | rfl | simp at h

/-- Frame lemma for the jump arms. -/
theorem step_jump_frame (st : MachineState T) (u : Nat) (jump_if : T → Bool)
    (num : NumImpl T) (e : MachineExecutionError) :
    (st.step_jump u jump_if num).2 = .error e → (st.step_jump u jump_if num).1 = st := by
  simp only [step_jump]
  repeat' split
  all_goals intro h
  all_goals first | rfl | simp at h

/-- Frame lemma for the relative-base arm. -/
theorem step_adjust_base_frame (st : MachineState T) (u : Nat) (num : NumImpl T)
    (e : MachineExecutionError) :
    (st.step_adjust_base u num).2 = .error e → (st.step_adjust_base u num).1 = st := by
  simp only [step_adjust_base]
  repeat' split
  all_goals intro h
  all_goals first | rfl | simp at h

/-- Frame lemma for the comparison arms. -/
theorem step_compare_frame (st : MachineState T) (u : Nat) (f : T → T → T)
    (num : NumImpl T) (e : MachineExecutionError) :
    (st.step_compare u f num).2 = .error e → (st.step_compare u f num).1 = st := by
  simp only [step_compare]
  split
  all_goals intro h
  · rename_i heq
    exact process_binary_op_frame _ _ _ _ _ heq
  · simp at h

/-- Frame lemma for the opcode dispatch. -/
theorem step_dispatch_frame [Add T] [Mul T] [LinearOrder T] (st : MachineState T)
    (u : Nat) (num : NumImpl T) (e : MachineExecutionError) :
    (st.step_dispatch u num).2 = .error e → (st.step_dispatch u num).1 = st := by
  rw [step_dispatch]
  by_cases h1 : u % 100 = 1
  · rw [if_pos h1]
    intro h
    exact process_binary_op_frame _ _ _ _ _ h
  rw [if_neg h1]
  by_cases h2 : u % 100 = 2
  · rw [if_pos h2]
    intro h
    exact process_binary_op_frame _ _ _ _ _ h
  rw [if_neg h2]
  by_cases h3 : u % 100 = 3
  · rw [if_pos h3]
    intro h
    exact step_input_frame _ _ _ _ h
  rw [if_neg h3]
  by_cases h4 : u % 100 = 4
  · rw [if_pos h4]
    intro h
    exact step_output_frame _ _ _ _ h
  rw [if_neg h4]
  by_cases h5 : u % 100 = 5
  · rw [if_pos h5]
    intro h
    exact step_jump_frame _ _ _ _ _ h
  rw [if_neg h5]
  by_cases h6 : u % 100 = 6
  · rw [if_pos h6]
    intro h
    exact step_jump_frame _ _ _ _ _ h
  rw [if_neg h6]
  by_cases h7 : u % 100 = 7
  · rw [if_pos h7]
    intro h
    exact step_compare_frame _ _ _ _ _ h
  rw [if_neg h7]
  by_cases h8 : u % 100 = 8
  · rw [if_pos h8]
    intro h
    exact step_compare_frame _ _ _ _ _ h
  rw [if_neg h8]
  by_cases h9 : u % 100 = 9
  · rw [if_pos h9]
    intro h
    exact step_adjust_base_frame _ _ _ _ h
  rw [if_neg h9]
  by_cases h99 : u % 100 = 99
  · rw [if_pos h99]
    by_cases hterm : u ≠ 99
    · rw [if_pos hterm]; intro h; rfl
    · rw [if_neg hterm]; intro h; simp at h
  rw [if_neg h99]
  intro h; rfl

/-- Shared frame lemma: whenever `one_step` fails, it returns the state it
was given. -/
theorem one_step_frame [Add T] [Mul T] [LinearOrder T] (st : MachineState T)
    (num : NumImpl T) (e : MachineExecutionError) :
    (st.one_step num).2 = .error e → (st.one_step num).1 = st := by
  simp only [one_step]
  split
  all_goals intro h
  · rfl
  · exact step_dispatch_frame _ _ _ _ h

/-- The step arms never change the dense region's length. -/
theorem step_input_length (st : MachineState T) (u : Nat) (num : NumImpl T) :
    (st.step_input u num).1.memory.length = st.memory.length := by
  simp only [step_input]
  repeat' split
  all_goals rfl

theorem step_output_length (st : MachineState T) (u : Nat) (num : NumImpl T) :
    (st.step_output u num).1.memory.length = st.memory.length := by
  simp only [step_output]
  repeat' split
  all_goals rfl

theorem step_jump_length (st : MachineState T) (u : Nat) (jump_if : T → Bool)
    (num : NumImpl T) :
    (st.step_jump u jump_if num).1.memory.length = st.memory.length := by
  simp only [step_jump]
  repeat' split
  all_goals rfl

theorem step_adjust_base_length (st : MachineState T) (u : Nat) (num : NumImpl T) :
    (st.step_adjust_base u num).1.memory.length = st.memory.length := by
  simp only [step_adjust_base]
  repeat' split
  all_goals rfl

theorem step_compare_length (st : MachineState T) (u : Nat) (f : T → T → T)
    (num : NumImpl T) :
    (st.step_compare u f num).1.memory.length = st.memory.length := by
  simp only [step_compare]
  exact process_binary_op_length _ _ _ _

/-- The opcode dispatch never changes the dense region's length. -/
theorem step_dispatch_length [Add T] [Mul T] [LinearOrder T] (st : MachineState T)
    (u : Nat) (num : NumImpl T) :
    (st.step_dispatch u num).1.memory.length = st.memory.length := by
  rw [step_dispatch]
  by_cases h1 : u % 100 = 1
  · rw [if_pos h1]
    exact process_binary_op_length _ _ _ _
  rw [if_neg h1]
  by_cases h2 : u % 100 = 2
  · rw [if_pos h2]
    exact process_binary_op_length _ _ _ _
  rw [if_neg h2]
  by_cases h3 : u % 100 = 3
  · rw [if_pos h3]
    exact step_input_length _ _ _
  rw [if_neg h3]
  by_cases h4 : u % 100 = 4
  · rw [if_pos h4]
    exact step_output_length _ _ _
  rw [if_neg h4]
  by_cases h5 : u % 100 = 5
  · rw [if_pos h5]
    exact step_jump_length _ _ _ _
  rw [if_neg h5]
  by_cases h6 : u % 100 = 6
  · rw [if_pos h6]
    exact step_jump_length _ _ _ _
  rw [if_neg h6]
  by_cases h7 : u % 100 = 7
  · rw [if_pos h7]
    exact step_compare_length _ _ _ _
  rw [if_neg h7]
  by_cases h8 : u % 100 = 8
  · rw [if_pos h8]
    exact step_compare_length _ _ _ _
  rw [if_neg h8]
  by_cases h9 : u % 100 = 9
  · rw [if_pos h9]
    exact step_adjust_base_length _ _ _
  rw [if_neg h9]
  by_cases h99 : u % 100 = 99
  · rw [if_pos h99]
    by_cases hterm : u ≠ 99
    · rw [if_pos hterm]
    · rw [if_neg hterm]
  rw [if_neg h99]

/-- Shared lemma: `one_step` never changes the dense region's length. -/
theorem one_step_length [Add T] [Mul T] [LinearOrder T] (st : MachineState T)
    (num : NumImpl T) :
    (st.one_step num).1.memory.length = st.memory.length := by
  simp only [one_step]
  split
  · rfl
  · exact step_dispatch_length _ _ _

/-- `process_binary_op` rejects an immediate destination digit with
`BadParameterMode` whenever both source operands resolve. -/
theorem process_binary_op_dest_immediate (st : MachineState T) (u : Nat) (f : T → T → T)
    (num : NumImpl T) (m1 m2 : ParameterMode) (a1 a2 : T)
    (hm1 : ParameterMode.of_int ((u / 100) % 10) = some m1)
    (hm2 : ParameterMode.of_int ((u / 1000) % 10) = some m2)
    (h1 : st.read_param (st.pc + 1) m1 num = .ok a1)
    (h2 : st.read_param (st.pc + 2) m2 num = .ok a2)
    (hdest : (u / 10000) % 10 = 1) :
    st.process_binary_op u f num = (st, .error (.BadParameterMode u)) := by
  unfold process_binary_op
  by_cases hbig : 100000 ≤ u
  · rw [if_pos hbig]
  · simp only [if_neg hbig, hm1, hm2, h1, h2, hdest]
    rfl

/-- `step_dispatch` on remainder 1 is the addition binary op. -/
theorem step_dispatch_rem1 [Add T] [Mul T] [LinearOrder T] (st : MachineState T)
    (u : Nat) (num : NumImpl T) (h : u % 100 = 1) :
    st.step_dispatch u num = st.process_binary_op u (fun a b => a + b) num := by
  rw [step_dispatch, h]
  rfl

/-- `step_dispatch` on remainder 2 is the multiplication binary op. -/
theorem step_dispatch_rem2 [Add T] [Mul T] [LinearOrder T] (st : MachineState T)
    (u : Nat) (num : NumImpl T) (h : u % 100 = 2) :
    st.step_dispatch u num = st.process_binary_op u (fun a b => a * b) num := by
  rw [step_dispatch, h]
  rfl

/-- `step_dispatch` on remainder 7 is the less-than binary op. -/
theorem step_dispatch_rem7 [Add T] [Mul T] [LinearOrder T] (st : MachineState T)
    (u : Nat) (num : NumImpl T) (h : u % 100 = 7) :
    st.step_dispatch u num =
      st.step_compare u (fun a b => if a < b then num.one else num.zero) num := by
  rw [step_dispatch, h]
  rfl

/-- `step_dispatch` on remainder 8 is the equality binary op. -/
theorem step_dispatch_rem8 [Add T] [Mul T] [LinearOrder T] (st : MachineState T)
    (u : Nat) (num : NumImpl T) (h : u % 100 = 8) :
    st.step_dispatch u num =
      st.step_compare u (fun a b => if a = b then num.one else num.zero) num := by
  rw [step_dispatch, h]
  rfl

end MachineState

open MachineState

/-! ## Machine claims -/

/-- C3 (amended): after `reset(mem)` the program counter is 0 and the dense
memory equals `mem`, while the relative base and the sparse tier are left
exactly as they were (the Rust `reset` does not touch them). -/
theorem claim_C3 (T : Type) (st : MachineState T) (mem : List T) :
    (st.reset mem).pc = 0 ∧ (st.reset mem).memory = mem ∧
    (st.reset mem).relative_base = st.relative_base ∧
    (st.reset mem).sparse_memory = st.sparse_memory :=
  ⟨rfl, rfl, rfl, rfl⟩

/-- C3 counterexample: a state with relative base 4 and a sparse entry at
address 5 keeps both across `reset`, so the claim's "relative base is 0 and
the sparse tier is empty" fails. -/
theorem claim_C3_counterexample :
    (c3state.reset [1, 2]).relative_base ≠ 0 ∧
    (c3state.reset [1, 2]).sparse_memory 5 ≠ none := by
  constructor
  · decide
  · decide

/-- C4: whenever `one_step` returns an error, the machine state — dense and
sparse memory, program counter, and relative base — is unchanged: no
instruction is partially applied on failure. -/
theorem claim_C4 (T : Type) [Add T] [Mul T] [LinearOrder T] (num : NumImpl T)
    (st : MachineState T) (err : MachineExecutionError)
    (h : (st.one_step num).2 = .error err) : (st.one_step num).1 = st :=
  one_step_frame st num err h

/-- C4 witness: a machine whose opcode cell is `-1` fails with an addressing
error and is returned unchanged. -/
theorem claim_C4_witness : (c4state.one_step numI64).1 = c4state :=
  claim_C4 Int numI64 c4state (.OutOfBounds .Negative) rfl

/-- C5 (amended): an instruction with opcode remainder 1, 2, 7 or 8 whose
destination mode digit is immediate is rejected by `one_step` with
`BadParameterMode` (and no state change), provided both source operands
resolve; if a source operand fails first, that addressing error is reported
instead. -/
theorem claim_C5 (T : Type) [Add T] [Mul T] [LinearOrder T] (num : NumImpl T)
    (st : MachineState T) (u : Nat) (m1 m2 : ParameterMode) (a1 a2 : T)
    (hcell : num.to_usize (st.read_mem_elt st.pc num) = some u)
    (hrem : u % 100 = 1 ∨ u % 100 = 2 ∨ u % 100 = 7 ∨ u % 100 = 8)
    (hdest : (u / 10000) % 10 = 1)
    (hm1 : ParameterMode.of_int ((u / 100) % 10) = some m1)
    (hm2 : ParameterMode.of_int ((u / 1000) % 10) = some m2)
    (h1 : st.read_param (st.pc + 1) m1 num = .ok a1)
    (h2 : st.read_param (st.pc + 2) m2 num = .ok a2) :
    st.one_step num = (st, .error (.BadParameterMode u)) := by
  unfold one_step
  rw [hcell]
  show st.step_dispatch u num = _
  rcases hrem with h | h | h | h
  · rw [step_dispatch_rem1 st u num h]
    exact process_binary_op_dest_immediate st u _ num m1 m2 a1 a2 hm1 hm2 h1 h2 hdest
  · rw [step_dispatch_rem2 st u num h]
    exact process_binary_op_dest_immediate st u _ num m1 m2 a1 a2 hm1 hm2 h1 h2 hdest
  · rw [step_dispatch_rem7 st u num h]
    unfold step_compare
    rw [process_binary_op_dest_immediate st u _ num m1 m2 a1 a2 hm1 hm2 h1 h2 hdest]
  · rw [step_dispatch_rem8 st u num h]
    unfold step_compare
    rw [process_binary_op_dest_immediate st u _ num m1 m2 a1 a2 hm1 hm2 h1 h2 hdest]

/-- C5 witness: instruction `11101` (both sources immediate, destination
digit 1) is rejected with `BadParameterMode 11101`. -/
theorem claim_C5_witness :
    c5wit.one_step numI64 = (c5wit, .error (.BadParameterMode 11101)) :=
  claim_C5 Int numI64 c5wit 11101 .Immediate .Immediate 5 6 rfl (Or.inl rfl) rfl rfl rfl
    rfl rfl

/-- C5 counterexample: instruction `10001` has remainder 1 and an immediate
destination digit, but its first source operand (position mode, raw value
`-5`) fails to resolve, so `one_step` reports `OutOfBounds Negative`, not a
`BadParameterMode` decode error as the claim demands. -/
theorem claim_C5_counterexample :
    c5state.one_step numI64 = (c5state, .error (.OutOfBounds .Negative)) ∧
    ∀ m : Nat, (c5state.one_step numI64).2 ≠ .error (.BadParameterMode m) := by
  constructor
  · rfl
  · intro m hm
    rw [show (c5state.one_step numI64).2 = .error (.OutOfBounds .Negative) from rfl] at hm
    simp at hm

/-- C6: writing any address then reading it back returns the written value,
and on a freshly constructed machine any address beyond the image reads as
the domain's zero. -/
theorem claim_C6 (T : Type) (num : NumImpl T) :
    (∀ (st : MachineState T) (i : Nat) (v : T),
       (st.set_mem_elt i v).read_mem_elt i num = v) ∧
    (∀ (mem : List T) (i : Nat), mem.length ≤ i →
       (MachineState.new_with_memory mem).read_mem_elt i num = num.zero) := by
  constructor
  · intro st i v
    by_cases hi : i < st.memory.length
    · simp [set_mem_elt, read_mem_elt, hi]
    · simp [set_mem_elt, read_mem_elt, hi]
  · intro mem i h
    have : ¬ i < mem.length := by omega
    simp [MachineState.new_with_memory, read_mem_elt, this]

/-- C6 witness: writing 42 far beyond a one-cell image reads back as 42, and
a never-written far address reads as zero. -/
theorem claim_C6_witness :
    ((MachineState.new_with_memory [5] : MachineState Int).set_mem_elt 1000000 42).read_mem_elt
        1000000 numI64 = 42 ∧
    (MachineState.new_with_memory [5] : MachineState Int).read_mem_elt 77 numI64 = 0 :=
  ⟨(claim_C6 Int numI64).1 _ 1000000 42, (claim_C6 Int numI64).2 [5] 77 (by decide)⟩

/-- C7: a write at or beyond the dense length goes to the sparse tier and
leaves the dense memory untouched, and `one_step` never changes the dense
length. -/
theorem claim_C7 (T : Type) [Add T] [Mul T] [LinearOrder T] (num : NumImpl T) :
    (∀ (st : MachineState T) (i : Nat) (v : T), st.memory.length ≤ i →
       (st.set_mem_elt i v).sparse_memory i = some v ∧
       (st.set_mem_elt i v).memory = st.memory) ∧
    (∀ st : MachineState T, (st.one_step num).1.memory.length = st.memory.length) := by
  constructor
  · intro st i v hi
    unfold set_mem_elt
    rw [if_neg (by omega)]
    exact ⟨by simp, rfl⟩
  · intro st
    exact one_step_length st num

/-- C7 witness: writing beyond a one-cell image stores sparsely and keeps
the dense image, and one step of a terminated machine keeps the dense
length. -/
theorem claim_C7_witness :
    (((MachineState.new_with_memory [5] : MachineState Int).set_mem_elt 3 7).sparse_memory 3
        = some 7 ∧
      ((MachineState.new_with_memory [5] : MachineState Int).set_mem_elt 3 7).memory = [5]) ∧
    (((MachineState.new_with_memory [99] : MachineState Int).one_step numI64).1.memory.length
        = 1) :=
  ⟨(claim_C7 Int numI64).1 (MachineState.new_with_memory [5]) 3 7 (by decide),
   (claim_C7 Int numI64).2 (MachineState.new_with_memory [99])⟩

/-- C9 (amended): a relative-mode read operand whose raw value fails
`to_i32` is reported as `Overflow` and a negative effective address as
`Negative` (parts 1–2), and the input instruction's relative target behaves
the same way (part 5); but the relative-mode *destination* of opcodes
1/2/7/8 reports `OutOfBounds Negative` for both failure kinds (parts 3–4),
so the two kinds are not distinguished there. -/
theorem claim_C9 :
    (∀ (T : Type) (num : NumImpl T) (st : MachineState T) (i : Nat),
       num.to_i32 (st.read_mem_elt i num) = none →
       st.read_param i .Relative num = .error .Overflow) ∧
    (∀ (T : Type) (num : NumImpl T) (st : MachineState T) (i : Nat) (off : Int),
       num.to_i32 (st.read_mem_elt i num) = some off →
       st.relative_base + off < 0 →
       st.read_param i .Relative num = .error .Negative) ∧
    (∀ (T : Type) (num : NumImpl T) (st : MachineState T) (u : Nat) (f : T → T → T)
       (m1 m2 : ParameterMode) (a1 a2 : T),
       u < 100000 →
       ParameterMode.of_int ((u / 100) % 10) = some m1 →
       ParameterMode.of_int ((u / 1000) % 10) = some m2 →
       st.read_param (st.pc + 1) m1 num = .ok a1 →
       st.read_param (st.pc + 2) m2 num = .ok a2 →
       (u / 10000) % 10 = 2 →
       num.to_i32 (st.read_mem_elt (st.pc + 3) num) = none →
       st.process_binary_op u f num = (st, .error (.OutOfBounds .Negative))) ∧
    (∀ (T : Type) (num : NumImpl T) (st : MachineState T) (u : Nat) (f : T → T → T)
       (m1 m2 : ParameterMode) (a1 a2 : T) (off : Int),
       u < 100000 →
       ParameterMode.of_int ((u / 100) % 10) = some m1 →
       ParameterMode.of_int ((u / 1000) % 10) = some m2 →
       st.read_param (st.pc + 1) m1 num = .ok a1 →
       st.read_param (st.pc + 2) m2 num = .ok a2 →
       (u / 10000) % 10 = 2 →
       num.to_i32 (st.read_mem_elt (st.pc + 3) num) = some off →
       st.relative_base + off < 0 →
       st.process_binary_op u f num = (st, .error (.OutOfBounds .Negative))) ∧
    (∀ (T : Type) (inst1 : Add T) (inst2 : Mul T) (inst3 : LinearOrder T)
       (num : NumImpl T) (st : MachineState T) (u : Nat),
       num.to_usize (st.read_mem_elt st.pc num) = some u →
       u % 100 = 3 → ¬ 1000 ≤ u → (u / 100) % 10 = 2 →
       num.to_i32 (st.read_mem_elt (st.pc + 1) num) = none →
       st.one_step num = (st, .error (.OutOfBounds .Overflow))) := by
  refine ⟨?_, ?_, ?_, ?_, ?_⟩
  · intro T num st i h
    simp only [read_param, h]
  · intro T num st i off h hneg
    simp only [read_param, h]
    rw [if_neg (by omega)]
  · intro T num st u f m1 m2 a1 a2 hsmall hm1 hm2 h1 h2 hdest hofl
    unfold process_binary_op
    simp only [if_neg (show ¬ 100000 ≤ u by omega), hm1, hm2, h1, h2, hdest,
      show ParameterMode.of_int 2 = some ParameterMode.Relative from rfl, hofl]
  · intro T num st u f m1 m2 a1 a2 off hsmall hm1 hm2 h1 h2 hdest hoff hneg
    unfold process_binary_op
    simp only [if_neg (show ¬ 100000 ≤ u by omega), hm1, hm2, h1, h2, hdest,
      show ParameterMode.of_int 2 = some ParameterMode.Relative from rfl, hoff]
    rw [if_pos hneg]
  · intro T inst1 inst2 inst3 num st u hcell hrem hsmall hmode hofl
    unfold one_step
    rw [hcell]
    show st.step_dispatch u num = _
    rw [step_dispatch, hrem]
    show st.step_input u num = _
    simp only [step_input, if_neg hsmall, hmode,
      show ParameterMode.of_int 2 = some ParameterMode.Relative from rfl, hofl]

/-- C9 witness: a machine with a huge cell at a relative read operand's slot
reports `Overflow` through `read_param`. -/
theorem claim_C9_witness :
    (MachineState.new_with_memory [2 ^ 31] : MachineState Int).read_param 0 .Relative numI64
      = .error .Overflow :=
  claim_C9.1 Int numI64 (MachineState.new_with_memory [2 ^ 31]) 0 rfl

/-- C9 counterexample: instruction `21101` with destination offset `2^31`
(which fails `to_i32`) is reported as `OutOfBounds Negative`, not the
`Overflow` error the claim requires, so overflow and negative addressing are
not distinguished on this path. -/
theorem claim_C9_counterexample :
    c9state.one_step numI64 = (c9state, .error (.OutOfBounds .Negative)) ∧
    (c9state.one_step numI64).2 ≠ .error (.OutOfBounds .Overflow) := by
  constructor
  · rfl
  · intro hm
    rw [show (c9state.one_step numI64).2 = .error (.OutOfBounds .Negative) from rfl] at hm
    simp at hm

/-- C10: a cell equal to 99 makes `one_step` return `Terminated` with the
whole state unchanged, so the next step terminates again (absorbing); a cell
decoding to remainder 99 but not exactly 99 is a `BadParameterMode` decode
error. -/
theorem claim_C10 :
    (∀ st : MachineState Int, st.read_mem_elt st.pc numI64 = 99 →
       st.one_step numI64 = (st, .ok (.Io .Terminated)) ∧
       (st.one_step numI64).1.one_step numI64 = ((st.one_step numI64).1, .ok (.Io .Terminated))) ∧
    (∀ (st : MachineState Int) (u : Nat),
       numI64.to_usize (st.read_mem_elt st.pc numI64) = some u → u % 100 = 99 → u ≠ 99 →
       st.one_step numI64 = (st, .error (.BadParameterMode u))) := by
  have key : ∀ st : MachineState Int, st.read_mem_elt st.pc numI64 = 99 →
      st.one_step numI64 = (st, .ok (.Io .Terminated)) := by
    intro st h
    have hcell : numI64.to_usize (st.read_mem_elt st.pc numI64) = some 99 := by
      rw [h]; rfl
    unfold one_step
    rw [hcell]
    rfl
  constructor
  · intro st h
    refine ⟨key st h, ?_⟩
    rw [key st h]
    exact key st h
  · intro st u hu hmod hne
    unfold one_step
    rw [hu]
    show st.step_dispatch u numI64 = _
    rw [step_dispatch, hmod, if_pos hne]
    rfl

/-! ## Simplifier soundness -/

/-- C10 witness: the one-cell program `[99]` terminates and stays
terminated, and the cell `199` is a decode error. -/
theorem claim_C10_witness :
    ((MachineState.new_with_memory [99] : MachineState Int).one_step numI64
      = (MachineState.new_with_memory [99], .ok (.Io .Terminated))) ∧
    ((MachineState.new_with_memory [199] : MachineState Int).one_step numI64
      = (MachineState.new_with_memory [199], .error (.BadParameterMode 199))) :=
  ⟨(claim_C10.1 (MachineState.new_with_memory [99]) rfl).1,
   claim_C10.2 (MachineState.new_with_memory [199]) 199 rfl rfl (by decide)⟩

/-- C1 (amended): for every fuel, expression and condition list, and every
binding defined on *every* variable under which each condition in `C`
holds, a successful `simplify` preserves the value computed by `eval`; in
particular with the empty condition list.  (The unamended claim, which
allows partial bindings, is refuted by `claim_C1_counterexample`.) -/
theorem claim_C1 (n : Nat) (e s : Ast) (C : List Condition) (f : Char → Int)
    (hC : ∀ c ∈ C, Condition.Holds f c) (hs : Ast.simplify n e C = some s) :
    s.eval (fun c => some (f c)) = e.eval (fun c => some (f c)) := by
  have hCT : ∀ c ∈ C, Condition.HoldsT f c :=
    fun c hm => (Condition.Holds_iff f c).mp (hC c hm)
  rw [Ast.eval_total, Ast.eval_total, Ast.simplify_sound n e C s f hCT hs]

/-- C1 witness: `x + 1` simplifies to `1 + x` and both evaluate to 6 at
`x := 5`. -/
theorem claim_C1_witness :
    (Ast.AddNode (.Constant 1) (.Variable 'x')).eval
        (fun c => some ((fun _ => (5 : Int)) c)) =
      (Ast.AddNode (.Variable 'x') (.Constant 1)).eval
        (fun c => some ((fun _ => (5 : Int)) c)) :=
  claim_C1 10 (.AddNode (.Variable 'x') (.Constant 1))
    (.AddNode (.Constant 1) (.Variable 'x')) [] (fun _ => 5) (by simp) rfl

/-- C1 counterexample: with the unbound variable `x`,
`if (x*Zero) == 0 then 1 else 2` evaluates to `ok 2` (the operand errors
and `Err('x') ≠ Ok(0)` picks the not-equal branch), but its simplification
under the empty condition list is the constant `1`: both evaluations
succeed and disagree. -/
theorem claim_C1_counterexample :
    Ast.simplify 10 c1ast [] = some (.Constant 1) ∧
    c1ast.eval (fun _ => none) = .ok 2 ∧
    (Ast.Constant 1).eval (fun _ => none) = .ok 1 ∧
    (Except.ok 2 : Except Char Int) ≠ .ok 1 :=
  ⟨rfl, rfl, rfl, by simp⟩

/-- C2 (amended): `eval` reports the first unbound variable reached at a
`Variable` leaf, through `Sum`/`Product` children (left child first), and in
the taken branch of a conditional; but the comparison operands of
`IfEqThen`/`IfLessThen` are compared as whole `Result` values (structural
equality, resp. the derived order with `Ok` before `Err`) without
propagating their errors, so `eval` can succeed even though an unbound
variable was reached inside a comparison operand (see
`claim_C2_counterexample`). -/
theorem claim_C2 :
    (∀ (c : Char) (var : Char → Option Int), var c = none →
       (Ast.Variable c).eval var = .error c) ∧
    (∀ (x y : Ast) (var : Char → Option Int) (c : Char), x.eval var = .error c →
       (Ast.AddNode x y).eval var = .error c) ∧
    (∀ (x y : Ast) (var : Char → Option Int) (v : Int) (c : Char),
       x.eval var = .ok v → y.eval var = .error c →
       (Ast.AddNode x y).eval var = .error c) ∧
    (∀ (x y : Ast) (var : Char → Option Int) (c : Char), x.eval var = .error c →
       (Ast.MulNode x y).eval var = .error c) ∧
    (∀ (x y : Ast) (var : Char → Option Int) (v : Int) (c : Char),
       x.eval var = .ok v → y.eval var = .error c →
       (Ast.MulNode x y).eval var = .error c) ∧
    (∀ (a b p q : Ast) (var : Char → Option Int),
       (Ast.IfEqThen a b p q).eval var =
         if exceptEq (a.eval var) (b.eval var) then p.eval var else q.eval var) ∧
    (∀ (a b p q : Ast) (var : Char → Option Int),
       (Ast.IfLessThen a b p q).eval var =
         if exceptLt (a.eval var) (b.eval var) then p.eval var else q.eval var) := by
  refine ⟨?_, ?_, ?_, ?_, ?_, ?_, ?_⟩ <;> intros <;> simp_all [Ast.eval]

/-- C2 witness: `x + 1` with `x` unbound errors with `'x'`. -/
theorem claim_C2_witness :
    (Ast.AddNode (.Variable 'x') (.Constant 1)).eval (fun _ => none) = .error 'x' :=
  claim_C2.2.1 (.Variable 'x') (.Constant 1) (fun _ => none) 'x' rfl

/-- C2 counterexample: `if x == x then 1 else 2` with `x` unbound evaluates
both comparison operands to `Err('x')`, compares them equal, and returns
`ok 1` — a successful value even though the evaluation path reached an
unbound variable. -/
theorem claim_C2_counterexample :
    (Ast.IfEqThen (.Variable 'x') (.Variable 'x') (.Constant 1) (.Constant 2)).eval
      (fun _ => none) = .ok 1 :=
  rfl

/-- C8 (amended): for every fuel pair and every binding defined on every
variable under which each condition in `C` holds, evaluating
`simplify(simplify(e, C), C)` agrees with evaluating `simplify(e, C)`.
(The unamended claim, quantifying over all bindings and condition lists, is
refuted by `claim_C8_counterexample` on both counts.) -/
theorem claim_C8 (n m : Nat) (e s1 s2 : Ast) (C : List Condition) (f : Char → Int)
    (hC : ∀ c ∈ C, Condition.Holds f c)
    (h1 : Ast.simplify n e C = some s1)
    (h2 : Ast.simplify m s1 C = some s2) :
    s2.eval (fun c => some (f c)) = s1.eval (fun c => some (f c)) := by
  have hCT : ∀ c ∈ C, Condition.HoldsT f c :=
    fun c hm => (Condition.Holds_iff f c).mp (hC c hm)
  rw [Ast.eval_total, Ast.eval_total, Ast.simplify_sound m s1 C s2 f hCT h2]

/-- C8 witness: `(x + 1) + 2` simplifies to `1 + (2 + x)` and then to
`3 + x`; both evaluate to 8 at `x := 5`. -/
theorem claim_C8_witness :
    (Ast.AddNode (.Constant 3) (.Variable 'x')).eval
        (fun c => some ((fun _ => (5 : Int)) c)) =
      (Ast.AddNode (.Constant 1) (.AddNode (.Constant 2) (.Variable 'x'))).eval
        (fun c => some ((fun _ => (5 : Int)) c)) :=
  claim_C8 10 10 (.AddNode (.AddNode (.Variable 'x') (.Constant 1)) (.Constant 2))
    (.AddNode (.Constant 1) (.AddNode (.Constant 2) (.Variable 'x')))
    (.AddNode (.Constant 3) (.Variable 'x')) [] (fun _ => 5) (by simp) rfl rfl

/-- C8 counterexample, in two parts.  Part 1 (empty condition list, partial
binding): simplifying `if (x + y) == x then 1 else 2` once swaps the sum to
`y + x` and twice swaps it back, so with both variables unbound the first
simplification evaluates to `ok 2` (`Err('y') ≠ Err('x')`) and the second
to `ok 1` (`Err('x') = Err('x')`).  Part 2 (total binding `x := 0`, a
condition list whose condition is false under it): the first pass leaves
the not-yet-normalized sum `1 + (2 + x)`, which no condition matches
(`ok 9`); the second pass normalizes it to `3 + x`, matches the false
condition `3 + x == 0`, and statically picks the equal branch (`ok 7`).
Both evaluations succeed and disagree in each part. -/
theorem claim_C8_counterexample :
    (Ast.simplify 10 c8astA [] = some c8s1A ∧
     Ast.simplify 10 c8s1A [] = some c8s2A ∧
     c8s1A.eval (fun _ => none) = .ok 2 ∧
     c8s2A.eval (fun _ => none) = .ok 1) ∧
    (Ast.simplify 10 c8astB c8condB = some c8s1B ∧
     Ast.simplify 10 c8s1B c8condB = some (.Constant 7) ∧
     c8s1B.eval (fun _ => some 0) = .ok 9 ∧
     (Ast.Constant 7).eval (fun _ => some 0) = .ok 7) :=
  ⟨⟨rfl, rfl, rfl, rfl⟩, ⟨rfl, rfl, rfl, rfl⟩⟩

end Intcode
